import Mathlib

/-!
Shallow embedding of the eviction-candidate scoring and selection algorithm
of the pressurecooker package (`pkg/pressurecooker/evict_selection.go`) and
of the watcher constructor (`NewWatcher`).

Modelling conventions:
* Go `time.Time` values and `time.Duration` values are modelled as `Int`
  nanosecond counts.  `time.Time.Sub` saturates at the `time.Duration`
  (int64) range, which `durSub` reproduces.
* Go `int`/`int64` arithmetic on scores cannot overflow for any input of
  plausible size, so scores are modelled as unbounded `Int`.
* `math.Floor (math.Log1p (float64 age))` is modelled exactly: for the
  whole domain reachable by the code (`2 ≤ 1+age ≤ 9223372037`, bounded by
  the int64 nanosecond range of `time.Duration`), the float64 computation
  agrees with the real-number value `⌊Real.log (1 + age)⌋`, and `lnFloor`
  below is proved to coincide with `⌊Real.log ·⌋` on that domain
  (`lnFloor_eq_floor_log`).
* The float64 pressure threshold of the watcher is modelled as `ℚ`.
-/

namespace Pressurecooker

/-- Owner reference of a workload: only the controller kind is read by the
scoring code. -/
structure OwnerReference where
  Kind : String
deriving DecidableEq

/-- The fields of a Kubernetes pod object that the scoring code reads
(`Namespace`, `Name`, `Status.QOSClass`, `Status.StartTime`,
`OwnerReferences`, `Spec.PriorityClassName`, `Annotations`). -/
structure Pod where
  Namespace : String
  Name : String
  QOSClass : String
  StartTime : Option Int
  OwnerReferences : List OwnerReference
  PriorityClassName : String
  Annotations : List (String × String)
deriving DecidableEq

/-- A `PodCandidate` couples a pod with its mutable score. -/
structure PodCandidate where
  Pod : Pod
  Score : Int
deriving DecidableEq

/-- A `PodCandidateSet` is an ordered collection of candidates. -/
abbrev PodCandidateSet := List PodCandidate

/-- Construction `PodCandidateSetFromPodList` wraps each pod of the list into a candidate
with score 0, preserving order. -/
def PodCandidateSetFromPodList (l : List Pod) : PodCandidateSet :=
  l.map (fun p => { Pod := p, Score := 0 })

/-- Constant `v1.PodQOSBestEffort`. -/
def PodQOSBestEffort : String := "BestEffort"

/-- Constant `v1.PodQOSBurstable`. -/
def PodQOSBurstable : String := "Burstable"

/-- Constant `v1.PodQOSGuaranteed`. -/
def PodQOSGuaranteed : String := "Guaranteed"

/-- Score delta of the QoS pass for one candidate: the `switch` in
`scoreByQOSClass`. -/
def qosDelta (q : String) : Int :=
  if q = PodQOSBestEffort then 100
  else if q = PodQOSBurstable then 100
  else 0

/-- Pass `scoreByQOSClass` adds the QoS delta to every candidate. -/
def scoreByQOSClass (s : PodCandidateSet) : PodCandidateSet :=
  s.map (fun c => { c with Score := c.Score + qosDelta c.Pod.QOSClass })

/-- Nanoseconds in `time.Second`. -/
def nsPerSecond : Int := 1000000000

/-- Largest `time.Duration` (int64) value. -/
def maxDuration : Int := 9223372036854775807

/-- Smallest `time.Duration` (int64) value. -/
def minDuration : Int := -9223372036854775808

/-- Subtraction `time.Time.Sub`: the difference of two instants, saturated at the
`time.Duration` range. -/
def durSub (t u : Int) : Int :=
  max minDuration (min maxDuration (t - u))

/-- Thresholds `expCeilings[k-1] = ⌈e^k⌉` for `k = 1..22`; these are the integer
thresholds at which `⌊Real.log m⌋` increases, for `m` up to the largest
whole-second age representable in an int64 nanosecond duration
(9223372036 s, and `9223372037 < e^23`).  Each entry is certified against
`Real.exp` in `lnFloor_eq_floor_log` below. -/
def expCeilings : List ℕ :=
  [3, 8, 21, 55, 149, 404, 1097, 2981, 8104, 22027, 59875, 162755,
   442414, 1202605, 3269018, 8886111, 24154953, 65659970, 178482301,
   485165196, 1318815735, 3584912847]

/-- Value `lnFloor m` is the number of exponents `k ≥ 1` with `e^k ≤ m`, i.e.
`⌊Real.log m⌋` on the domain `2 ≤ m ≤ 9223372037`; it models
`math.Floor (math.Log1p (float64 age))` applied to `m = 1 + age`. -/
def lnFloor (m : ℕ) : ℕ :=
  expCeilings.countP (fun t => t ≤ m)

/-- Whole-second age derived from a duration, floored at 1:
`age := int64(delta / time.Second); if age < 1 { age = 1 }`. -/
def ageSeconds (delta : Int) : Int :=
  if Int.tdiv delta nsPerSecond < 1 then 1 else Int.tdiv delta nsPerSecond

/-- Score delta of the age pass for one pod (the loop body of
`scoreByAge`). -/
def ageDelta (now minPodAge : Int) (p : Pod) : Int :=
  match p.StartTime with
  | none => -10000
  | some st =>
    if durSub now st < minPodAge then -10000
    else (lnFloor (1 + ageSeconds (durSub now st)).toNat : Int)

/-- Pass `scoreByAge` adds the age delta to every candidate. -/
def scoreByAge (now minPodAge : Int) (s : PodCandidateSet) : PodCandidateSet :=
  s.map (fun c => { c with Score := c.Score + ageDelta now minPodAge c.Pod })

/-- Score delta for one owner reference: the `switch` in
`scoreByOwnerType`. -/
def kindDelta (kind : String) : Int :=
  if kind = "ReplicaSet" then 100
  else if kind = "StatefulSet" then -10000
  else if kind = "DaemonSet" then -10000
  else 0

/-- Score delta of the owner-type pass for one pod: a −1000 penalty when
there are no owner references, plus the per-reference deltas. -/
def ownerDelta (p : Pod) : Int :=
  (if p.OwnerReferences.length = 0 then -1000 else 0)
    + (p.OwnerReferences.map (fun o => kindDelta o.Kind)).sum

/-- Pass `scoreByOwnerType` adds the owner delta to every candidate. -/
def scoreByOwnerType (s : PodCandidateSet) : PodCandidateSet :=
  s.map (fun c => { c with Score := c.Score + ownerDelta c.Pod })

/-- Annotation key marking critical pods. -/
def criticalPodAnnotation : String := "scheduler.alpha.kubernetes.io/critical-pod"

/-- Presence test for an annotation key (the map-lookup `_, ok :=` in
`scoreByCriticality`). -/
def hasAnnotationKey (p : Pod) (key : String) : Bool :=
  p.Annotations.any (fun kv => kv.1 = key)

/-- Score delta of the criticality pass for one pod. -/
def critDelta (p : Pod) : Int :=
  (if p.Namespace = "kube-system" then -10000 else 0)
    + (if p.PriorityClassName = "system-cluster-critical" then -10000
       else if p.PriorityClassName = "system-node-critical" then -10000
       else 0)
    + (if hasAnnotationKey p criticalPodAnnotation then -10000 else 0)

/-- Pass `scoreByCriticality` adds the criticality delta to every candidate. -/
def scoreByCriticality (s : PodCandidateSet) : PodCandidateSet :=
  s.map (fun c => { c with Score := c.Score + critDelta c.Pod })

/-- The comparison realized by `sort.Stable(sort.Reverse(s))` together with
`Less i j ↔ s[i].Score < s[j].Score`: candidate `a` may stay before `b`
exactly when `b.Score ≤ a.Score` (descending order). -/
def candidateLE (a b : PodCandidate) : Bool :=
  decide (b.Score ≤ a.Score)

/-- Model of `sort.Stable(sort.Reverse(s))`: the unique stable sort of the
candidates, descending by score. -/
def sortCandidates (s : PodCandidateSet) : PodCandidateSet :=
  s.mergeSort candidateLE

/-- The four scoring passes in the order `SelectPodForEviction` applies
them. -/
def applyScoring (now minPodAge : Int) (s : PodCandidateSet) : PodCandidateSet :=
  scoreByCriticality (scoreByOwnerType (scoreByQOSClass (scoreByAge now minPodAge s)))

/-- Selection `SelectPodForEviction`: score, stable-sort descending, and return the
first candidate whose score is not negative (`nil` when there is none). -/
def selectPodForEviction (now minPodAge : Int) (s : PodCandidateSet) : Option Pod :=
  ((sortCandidates (applyScoring now minPodAge s)).find?
    (fun c => !decide (c.Score < 0))).map (fun c => c.Pod)

/-- Total score assigned to a pod by the four passes. -/
def finalScore (now minPodAge : Int) (p : Pod) : Int :=
  ageDelta now minPodAge p + qosDelta p.QOSClass + ownerDelta p + critDelta p

/-- True when some owner reference is stateful-set-style or
daemon-set-style. -/
def hasVetoOwner (p : Pod) : Bool :=
  p.OwnerReferences.any (fun o => decide (o.Kind = "StatefulSet") || decide (o.Kind = "DaemonSet"))

/-- Number of replica-set-style owner references. -/
def countReplicaSetRefs (p : Pod) : ℕ :=
  p.OwnerReferences.countP (fun o => o.Kind = "ReplicaSet")

/-- A pod receives at least one −10000 veto delta: from the age pass
(missing or too-young start time), the owner pass (stateful-set-style or
daemon-set-style owner), or the criticality pass. -/
def receivesVeto (now minPodAge : Int) (p : Pod) : Prop :=
  p.StartTime = none
    ∨ (∃ st, p.StartTime = some st ∧ durSub now st < minPodAge)
    ∨ hasVetoOwner p = true
    ∨ p.Namespace = "kube-system"
    ∨ p.PriorityClassName = "system-cluster-critical"
    ∨ p.PriorityClassName = "system-node-critical"
    ∨ hasAnnotationKey p criticalPodAnnotation = true

/-- The procfs handle returned by `procfs.NewDefaultFS` (only its identity
matters to the watcher). -/
structure ProcFS where
  mountPoint : String
deriving DecidableEq

/-- The watcher state built by `NewWatcher`. -/
structure Watcher where
  TickerInterval : Int
  PressureThreshold : ℚ
  proc : ProcFS
  isCurrentlyHigh : Bool
deriving DecidableEq

/-- Constructor `NewWatcher`: default a zero threshold to 25, fail when the procfs
handle cannot be obtained, otherwise build the watcher with a 15-second
ticker interval.  The outcome of `procfs.NewDefaultFS` (an external probe
of the host) is passed in as an `Except` value. -/
def NewWatcher (pressureThreshold : ℚ) (defaultFS : Except String ProcFS) :
    Except String Watcher :=
  let pt := if pressureThreshold = 0 then 25 else pressureThreshold
  match defaultFS with
  | Except.error e => Except.error e
  | Except.ok fs =>
    Except.ok { TickerInterval := 15 * nsPerSecond, PressureThreshold := pt,
                proc := fs, isCurrentlyHigh := false }

/-- A pod whose age pass is exercised at various `now` instants: started at
instant 0, guaranteed QoS, replica-set owned, uncritical. -/
def agePod : Pod :=
  { Namespace := "default", Name := "age-probe", QOSClass := "Guaranteed",
    StartTime := some 0, OwnerReferences := [{ Kind := "ReplicaSet" }],
    PriorityClassName := "", Annotations := [] }

/-- A pod with no recorded start time (an age veto) but 100 replica-set
owner references. -/
def cxManyOwnersPod : Pod :=
  { Namespace := "default", Name := "many-owners", QOSClass := "BestEffort",
    StartTime := none,
    OwnerReferences := List.replicate 100 { Kind := "ReplicaSet" },
    PriorityClassName := "", Annotations := [] }

/-- A pod with one stateful-set owner reference and 101 replica-set owner
references. -/
def cxMixedOwnersPod : Pod :=
  { Namespace := "default", Name := "mixed-owners", QOSClass := "Guaranteed",
    StartTime := some 0,
    OwnerReferences :=
      List.replicate 101 { Kind := "ReplicaSet" } ++ [{ Kind := "StatefulSet" }],
    PriorityClassName := "", Annotations := [] }

/-- A stateful-set-owned pod. -/
def vetoPod : Pod :=
  { Namespace := "default", Name := "stateful", QOSClass := "BestEffort",
    StartTime := some 0, OwnerReferences := [{ Kind := "StatefulSet" }],
    PriorityClassName := "", Annotations := [] }

/-- A harmless, selectable pod: best-effort, replica-set owned, started at
instant 0, uncritical. -/
def goodPod : Pod :=
  { Namespace := "default", Name := "good", QOSClass := "BestEffort",
    StartTime := some 0, OwnerReferences := [{ Kind := "ReplicaSet" }],
    PriorityClassName := "", Annotations := [] }

/-- A job-owned pod (unrecognized controller kind). -/
def jobPod : Pod :=
  { Namespace := "default", Name := "job", QOSClass := "Guaranteed",
    StartTime := some 0, OwnerReferences := [{ Kind := "Job" }],
    PriorityClassName := "", Annotations := [] }

/-!
Helper lemmas.  First the certification of `lnFloor` against the real
logarithm on the whole domain the age pass can reach.
-/

theorem exp_one_lb : (363916618873 / 133877442384 - 1 / 10 ^ 20 : ℝ) ≤ Real.exp 1 := by
  have h := Real.exp_one_near_20
  rw [abs_sub_le_iff] at h
  linarith [h.2]

theorem exp_one_ub : Real.exp 1 ≤ (363916618873 / 133877442384 + 1 / 10 ^ 20 : ℝ) := by
  have h := Real.exp_one_near_20
  rw [abs_sub_le_iff] at h
  linarith [h.1]

theorem expApprox (k c : ℕ)
    (h1 : (c : ℝ) - 1 < (363916618873 / 133877442384 - 1 / 10 ^ 20) ^ k)
    (h2 : ((363916618873 / 133877442384 + 1 / 10 ^ 20 : ℝ)) ^ k < c) :
    ((c : ℝ) - 1) < Real.exp k ∧ Real.exp k < c := by
  have hek : Real.exp (k : ℝ) = Real.exp 1 ^ k := by
    rw [← Real.exp_nat_mul]; norm_num
  have hlb : ((363916618873 / 133877442384 - 1 / 10 ^ 20 : ℝ)) ^ k ≤ Real.exp 1 ^ k :=
    pow_le_pow_left₀ (by norm_num) exp_one_lb k
  have hub : Real.exp 1 ^ k ≤ ((363916618873 / 133877442384 + 1 / 10 ^ 20 : ℝ)) ^ k :=
    pow_le_pow_left₀ (le_of_lt (Real.exp_pos 1)) exp_one_ub k
  rw [hek]
  exact ⟨lt_of_lt_of_le h1 hlb, lt_of_le_of_lt hub h2⟩

theorem floorLogKey (m k c : ℕ) (hm : 2 ≤ m)
    (hc : ((c : ℝ) - 1) < Real.exp k ∧ Real.exp k < c) :
    (c ≤ m) ↔ ((k : ℤ) ≤ ⌊Real.log m⌋) := by
  have hm0 : (0 : ℝ) < m := by
    have : (0 : ℕ) < m := by omega
    exact_mod_cast this
  constructor
  · intro h
    rw [Int.le_floor]
    have h1 : Real.exp k ≤ m := le_trans (le_of_lt hc.2) (by exact_mod_cast h)
    push_cast
    rw [Real.le_log_iff_exp_le hm0]
    exact h1
  · intro h
    rw [Int.le_floor] at h
    push_cast at h
    rw [Real.le_log_iff_exp_le hm0] at h
    have h3 : ((c : ℝ) - 1) < m := lt_of_lt_of_le hc.1 h
    have h4 : (c : ℝ) < (m : ℝ) + 1 := by linarith
    have h5 : c < m + 1 := by exact_mod_cast h4
    omega

/-- On every input the age pass can produce (`m = 1 + age` with
`1 ≤ age ≤ 9223372036`), `lnFloor` is the floor of the real natural
logarithm. -/
theorem lnFloor_eq_floor_log (m : ℕ) (hm : 2 ≤ m) (hub : m ≤ 9223372037) :
    (lnFloor m : ℤ) = ⌊Real.log m⌋ := by
  have hm0 : (0 : ℝ) < m := by
    have : (0 : ℕ) < m := by omega
    exact_mod_cast this
  have e1 := floorLogKey m 1 3 hm (expApprox 1 3 (by norm_num) (by norm_num))
  have e2 := floorLogKey m 2 8 hm (expApprox 2 8 (by norm_num) (by norm_num))
  have e3 := floorLogKey m 3 21 hm (expApprox 3 21 (by norm_num) (by norm_num))
  have e4 := floorLogKey m 4 55 hm (expApprox 4 55 (by norm_num) (by norm_num))
  have e5 := floorLogKey m 5 149 hm (expApprox 5 149 (by norm_num) (by norm_num))
  have e6 := floorLogKey m 6 404 hm (expApprox 6 404 (by norm_num) (by norm_num))
  have e7 := floorLogKey m 7 1097 hm (expApprox 7 1097 (by norm_num) (by norm_num))
  have e8 := floorLogKey m 8 2981 hm (expApprox 8 2981 (by norm_num) (by norm_num))
  have e9 := floorLogKey m 9 8104 hm (expApprox 9 8104 (by norm_num) (by norm_num))
  have e10 := floorLogKey m 10 22027 hm (expApprox 10 22027 (by norm_num) (by norm_num))
  have e11 := floorLogKey m 11 59875 hm (expApprox 11 59875 (by norm_num) (by norm_num))
  have e12 := floorLogKey m 12 162755 hm (expApprox 12 162755 (by norm_num) (by norm_num))
  have e13 := floorLogKey m 13 442414 hm (expApprox 13 442414 (by norm_num) (by norm_num))
  have e14 := floorLogKey m 14 1202605 hm (expApprox 14 1202605 (by norm_num) (by norm_num))
  have e15 := floorLogKey m 15 3269018 hm (expApprox 15 3269018 (by norm_num) (by norm_num))
  have e16 := floorLogKey m 16 8886111 hm (expApprox 16 8886111 (by norm_num) (by norm_num))
  have e17 := floorLogKey m 17 24154953 hm (expApprox 17 24154953 (by norm_num) (by norm_num))
  have e18 := floorLogKey m 18 65659970 hm (expApprox 18 65659970 (by norm_num) (by norm_num))
  have e19 := floorLogKey m 19 178482301 hm (expApprox 19 178482301 (by norm_num) (by norm_num))
  have e20 := floorLogKey m 20 485165196 hm (expApprox 20 485165196 (by norm_num) (by norm_num))
  have e21 := floorLogKey m 21 1318815735 hm (expApprox 21 1318815735 (by norm_num) (by norm_num))
  have e22 := floorLogKey m 22 3584912847 hm (expApprox 22 3584912847 (by norm_num) (by norm_num))
  have hF0 : (0 : ℤ) ≤ ⌊Real.log m⌋ := by
    rw [Int.le_floor]
    push_cast
    apply Real.log_nonneg
    have : (1 : ℕ) ≤ m := by omega
    exact_mod_cast this
  have hF23 : ⌊Real.log m⌋ < 23 := by
    rw [Int.floor_lt]
    push_cast
    rw [Real.log_lt_iff_lt_exp hm0]
    have hb := (expApprox 23 9744803447 (by norm_num) (by norm_num)).1
    push_cast at hb
    have hm2 : (m : ℝ) ≤ 9223372037 := by exact_mod_cast hub
    linarith
  simp only [lnFloor, expCeilings, List.countP_cons, List.countP_nil,
    decide_eq_true_eq]
  simp only [e1, e2, e3, e4, e5, e6, e7, e8, e9, e10, e11, e12, e13, e14,
    e15, e16, e17, e18, e19, e20, e21, e22]
  clear e1 e2 e3 e4 e5 e6 e7 e8 e9 e10 e11 e12 e13 e14 e15 e16 e17 e18 e19
  clear e20 e21 e22 hm0 hm hub
  generalize ⌊Real.log (m : ℝ)⌋ = F at hF0 hF23 ⊢
  interval_cases F <;> decide

/-!
Bounds on the individual score deltas.
-/

theorem lnFloor_le (m : ℕ) : lnFloor m ≤ 22 := by
  have h := List.countP_le_length (l := expCeilings) (p := fun t => decide (t ≤ m))
  simpa [lnFloor, expCeilings] using h

theorem lnFloor_mono (m1 m2 : ℕ) (h : m1 ≤ m2) : lnFloor m1 ≤ lnFloor m2 := by
  unfold lnFloor
  apply List.countP_mono_left
  intro t ht hp
  simp only [decide_eq_true_eq] at hp ⊢
  omega

theorem tdiv_ns_nonpos (d : Int) (hd : d ≤ 0) : Int.tdiv d nsPerSecond ≤ 0 := by
  have h0 : (0 : Int) ≤ -d := by omega
  have h1 : 0 ≤ (-d).tdiv nsPerSecond :=
    Int.tdiv_nonneg h0 (by norm_num [nsPerSecond])
  rw [Int.neg_tdiv] at h1
  omega

theorem tdiv_ns_mono (d e : Int) (hd : 0 ≤ d) (h : d ≤ e) :
    Int.tdiv d nsPerSecond ≤ Int.tdiv e nsPerSecond := by
  rw [Int.tdiv_eq_ediv hd (by norm_num [nsPerSecond]),
    Int.tdiv_eq_ediv (le_trans hd h) (by norm_num [nsPerSecond])]
  exact Int.ediv_le_ediv (by norm_num [nsPerSecond]) h

theorem ageSeconds_lower (d : Int) : 1 ≤ ageSeconds d := by
  unfold ageSeconds
  split <;> omega

theorem ageSeconds_upper (d : Int) (hd : d ≤ maxDuration) :
    ageSeconds d ≤ 9223372036 := by
  unfold ageSeconds
  split
  · omega
  · rename_i h
    have hd0 : 0 ≤ d := by
      by_contra hneg
      exact h (by have := tdiv_ns_nonpos d (by omega); omega)
    have := tdiv_ns_mono d maxDuration hd0 hd
    have hmax : Int.tdiv maxDuration nsPerSecond = 9223372036 := by decide
    omega

theorem ageSeconds_mono (d e : Int) (h : d ≤ e) : ageSeconds d ≤ ageSeconds e := by
  unfold ageSeconds
  split
  · have := ageSeconds_lower e
    unfold ageSeconds at this
    split <;> omega
  · rename_i hd1
    have hd0 : 0 ≤ d := by
      by_contra hneg
      exact hd1 (by have := tdiv_ns_nonpos d (by omega); omega)
    have hmono := tdiv_ns_mono d e hd0 h
    split <;> omega

theorem durSub_le_max (t u : Int) : durSub t u ≤ maxDuration := by
  unfold durSub minDuration maxDuration
  omega

theorem ageDelta_le (now minPodAge : Int) (p : Pod) :
    ageDelta now minPodAge p ≤ 22 := by
  unfold ageDelta
  split
  · omega
  · rename_i x st heq
    split
    · omega
    · have h1 := ageSeconds_lower (durSub now st)
      have h2 := ageSeconds_upper (durSub now st) (durSub_le_max now st)
      have h3 := lnFloor_le (1 + ageSeconds (durSub now st)).toNat
      omega

theorem qosDelta_bounds (q : String) : 0 ≤ qosDelta q ∧ qosDelta q ≤ 100 := by
  unfold qosDelta
  split_ifs <;> omega

theorem sum_kindDelta_le (refs : List OwnerReference) :
    (refs.map (fun o => kindDelta o.Kind)).sum
      ≤ 100 * (refs.countP (fun o => o.Kind = "ReplicaSet") : ℤ) := by
  induction refs with
  | nil => simp
  | cons o t ih =>
    simp only [List.map_cons, List.sum_cons, List.countP_cons]
    by_cases h : o.Kind = "ReplicaSet"
    · have hk : kindDelta o.Kind = 100 := by simp [kindDelta, h]
      rw [hk]
      simp only [h, decide_eq_true_eq, if_pos]
      push_cast
      omega
    · have hk : kindDelta o.Kind ≤ 0 := by
        unfold kindDelta
        split_ifs <;> omega
      rw [if_neg (by simpa using h)]
      push_cast
      omega

theorem sum_kindDelta_veto (refs : List OwnerReference)
    (h : refs.any (fun o => decide (o.Kind = "StatefulSet") || decide (o.Kind = "DaemonSet")) = true) :
    (refs.map (fun o => kindDelta o.Kind)).sum
      ≤ 100 * (refs.countP (fun o => o.Kind = "ReplicaSet") : ℤ) - 10000 := by
  induction refs with
  | nil => simp at h
  | cons o t ih =>
    simp only [List.any_cons, Bool.or_eq_true, decide_eq_true_eq] at h
    simp only [List.map_cons, List.sum_cons, List.countP_cons]
    by_cases hv : o.Kind = "StatefulSet" ∨ o.Kind = "DaemonSet"
    · have hk : kindDelta o.Kind = -10000 := by
        rcases hv with hv | hv <;> simp [kindDelta, hv]
      have hnrs : ¬(o.Kind = "ReplicaSet") := by
        rcases hv with hv | hv <;> simp [hv]
      have htail := sum_kindDelta_le t
      rw [hk, if_neg (by simpa using hnrs)]
      push_cast
      omega
    · have h' : t.any (fun o => decide (o.Kind = "StatefulSet") || decide (o.Kind = "DaemonSet")) = true := by
        rcases h with h | h
        · exact absurd h hv
        · exact h
      have := ih h'
      by_cases hrs : o.Kind = "ReplicaSet"
      · have hk : kindDelta o.Kind = 100 := by simp [kindDelta, hrs]
        rw [hk]
        simp only [hrs, decide_eq_true_eq, if_pos]
        push_cast
        omega
      · have hk : kindDelta o.Kind ≤ 0 := by
          unfold kindDelta
          split_ifs <;> omega
        rw [if_neg (by simpa using hrs)]
        push_cast
        omega

theorem ownerDelta_le (p : Pod) :
    ownerDelta p ≤ 100 * (countReplicaSetRefs p : ℤ) := by
  unfold ownerDelta countReplicaSetRefs
  have := sum_kindDelta_le p.OwnerReferences
  split_ifs <;> omega

theorem ownerDelta_veto (p : Pod) (h : hasVetoOwner p = true) :
    ownerDelta p ≤ 100 * (countReplicaSetRefs p : ℤ) - 10000 := by
  unfold ownerDelta countReplicaSetRefs
  have hsum := sum_kindDelta_veto p.OwnerReferences h
  have hne : p.OwnerReferences ≠ [] := by
    intro he
    rw [hasVetoOwner, he] at h
    simp at h
  have hlen : ¬(p.OwnerReferences.length = 0) := by
    simpa [List.length_eq_zero] using hne
  rw [if_neg hlen]
  omega

theorem critDelta_nonpos (p : Pod) : critDelta p ≤ 0 := by
  unfold critDelta
  split_ifs <;> omega

theorem critDelta_veto (p : Pod)
    (h : p.Namespace = "kube-system"
      ∨ p.PriorityClassName = "system-cluster-critical"
      ∨ p.PriorityClassName = "system-node-critical"
      ∨ hasAnnotationKey p criticalPodAnnotation = true) :
    critDelta p ≤ -10000 := by
  unfold critDelta
  rcases h with h | h | h | h <;> split_ifs <;> simp_all

/-!
Structural lemmas about the pipeline.
-/

theorem applyScoring_eq (now minPodAge : Int) (s : PodCandidateSet) :
    applyScoring now minPodAge s
      = s.map (fun c => { c with Score := c.Score + finalScore now minPodAge c.Pod }) := by
  unfold applyScoring scoreByCriticality scoreByOwnerType scoreByQOSClass scoreByAge
  simp only [List.map_map]
  apply List.map_congr_left
  intro c _
  simp only [Function.comp, finalScore, PodCandidate.mk.injEq, true_and]
  ring

theorem candidateLE_trans : ∀ a b c : PodCandidate,
    candidateLE a b = true → candidateLE b c = true → candidateLE a c = true := by
  intro a b c h1 h2
  simp only [candidateLE, decide_eq_true_eq] at h1 h2 ⊢
  omega

theorem candidateLE_total : ∀ a b : PodCandidate,
    (candidateLE a b || candidateLE b a) = true := by
  intro a b
  simp only [candidateLE, Bool.or_eq_true, decide_eq_true_eq]
  omega

theorem selected_candidate_scored_nonneg (now minPodAge : Int)
    (s : PodCandidateSet) (q : Pod)
    (h : selectPodForEviction now minPodAge s = some q) :
    ∃ c, c ∈ applyScoring now minPodAge s ∧ c.Pod = q ∧ 0 ≤ c.Score := by
  unfold selectPodForEviction at h
  rw [Option.map_eq_some'] at h
  obtain ⟨c, hfind, hpod⟩ := h
  have hp := List.find?_some hfind
  have hmem := List.mem_of_find?_eq_some hfind
  have hmem2 : c ∈ applyScoring now minPodAge s :=
    (List.mergeSort_perm (applyScoring now minPodAge s) candidateLE).mem_iff.mp hmem
  refine ⟨c, hmem2, hpod, ?_⟩
  simp only [Bool.not_eq_eq_eq_not, Bool.not_true, decide_eq_false_iff_not, not_lt] at hp
  exact hp

/-!
Claim theorems.
-/

/-- C1 (amended): every candidate that receives at least one −10000 veto
delta and has at most 98 replica-set-style owner references ends with a
strictly negative final score, and `SelectPodForEviction` never returns
such a candidate.  (Without the bound on replica-set owner references the
claim is false: see the counterexample theorem.) -/
theorem vetoedCandidateNeverSelected (now minPodAge : Int) (p : Pod) (l : List Pod)
    (hveto : receivesVeto now minPodAge p)
    (hrs : countReplicaSetRefs p ≤ 98) :
    finalScore now minPodAge p < 0 ∧
    selectPodForEviction now minPodAge (PodCandidateSetFromPodList l) ≠ some p := by
  have hq := qosDelta_bounds p.QOSClass
  have hcrit := critDelta_nonpos p
  have hrsZ : (countReplicaSetRefs p : ℤ) ≤ 98 := by exact_mod_cast hrs
  have hscore : finalScore now minPodAge p < 0 := by
    rcases hveto with h | h | h | h | h | h | h
    · have hage : ageDelta now minPodAge p = -10000 := by
        unfold ageDelta; rw [h]
      have howner := ownerDelta_le p
      unfold finalScore
      omega
    · obtain ⟨st, hst, hlt⟩ := h
      have hage : ageDelta now minPodAge p = -10000 := by
        unfold ageDelta; rw [hst]; simp [hlt]
      have howner := ownerDelta_le p
      unfold finalScore
      omega
    · have hage := ageDelta_le now minPodAge p
      have howner := ownerDelta_veto p h
      unfold finalScore
      omega
    · have hage := ageDelta_le now minPodAge p
      have howner := ownerDelta_le p
      have hcv := critDelta_veto p (Or.inl h)
      unfold finalScore
      omega
    · have hage := ageDelta_le now minPodAge p
      have howner := ownerDelta_le p
      have hcv := critDelta_veto p (Or.inr (Or.inl h))
      unfold finalScore
      omega
    · have hage := ageDelta_le now minPodAge p
      have howner := ownerDelta_le p
      have hcv := critDelta_veto p (Or.inr (Or.inr (Or.inl h)))
      unfold finalScore
      omega
    · have hage := ageDelta_le now minPodAge p
      have howner := ownerDelta_le p
      have hcv := critDelta_veto p (Or.inr (Or.inr (Or.inr h)))
      unfold finalScore
      omega
  refine ⟨hscore, ?_⟩
  intro hsel
  obtain ⟨c, hmem, hpod, hnn⟩ :=
    selected_candidate_scored_nonneg now minPodAge (PodCandidateSetFromPodList l) p hsel
  rw [applyScoring_eq, PodCandidateSetFromPodList, List.map_map, List.mem_map] at hmem
  obtain ⟨p0, hp0, hc⟩ := hmem
  rw [← hc] at hpod hnn
  simp only [Function.comp] at hpod hnn
  rw [hpod] at hnn
  omega

set_option maxRecDepth 10000 in
/-- C1 counterexample: `cxManyOwnersPod` has no recorded start time, so the
age pass applies its −10000 veto, yet 100 replica-set owner references and
the best-effort QoS bonus bring the final score to +100 and
`SelectPodForEviction` returns the pod. -/
theorem vetoOverriddenByOwnerBonuses :
    cxManyOwnersPod.StartTime = none ∧
    finalScore 0 0 cxManyOwnersPod = 100 ∧
    selectPodForEviction 0 0 (PodCandidateSetFromPodList [cxManyOwnersPod])
      = some cxManyOwnersPod := by
  refine ⟨rfl, by decide, ?_⟩
  have h : applyScoring 0 0 (PodCandidateSetFromPodList [cxManyOwnersPod])
      = [{ Pod := cxManyOwnersPod, Score := 100 }] := by decide
  rw [selectPodForEviction, h, sortCandidates, List.mergeSort]
  decide

/-- C1 witness: a stateful-set-owned pod is vetoed and never selected. -/
theorem vetoedCandidateNeverSelectedWitness :
    finalScore 0 0 vetoPod < 0 ∧
    selectPodForEviction 0 0 (PodCandidateSetFromPodList [vetoPod]) ≠ some vetoPod :=
  vetoedCandidateNeverSelected 0 0 vetoPod [vetoPod]
    (Or.inr (Or.inr (Or.inl (by decide)))) (by decide)

/-- C5 (amended): the owner pass applies −1000 to candidates with no owner
references and composes per-reference deltas (+100 replica-set, −10000
stateful-set or daemon-set, additively); one disqualifying reference forces
a negative net contribution provided at most 99 of the owner references
are replica-set-style. -/
theorem ownerScoringSpec (s : PodCandidateSet) (p : Pod) :
    scoreByOwnerType s = s.map (fun c => { c with Score := c.Score + ownerDelta c.Pod }) ∧
    (p.OwnerReferences = [] → ownerDelta p = -1000) ∧
    kindDelta "ReplicaSet" = 100 ∧
    kindDelta "StatefulSet" = -10000 ∧
    kindDelta "DaemonSet" = -10000 ∧
    ownerDelta p = (if p.OwnerReferences.length = 0 then -1000 else 0)
        + (p.OwnerReferences.map (fun o => kindDelta o.Kind)).sum ∧
    (hasVetoOwner p = true → countReplicaSetRefs p ≤ 99 → ownerDelta p < 0) := by
  refine ⟨rfl, ?_, by decide, by decide, by decide, rfl, ?_⟩
  · intro h
    simp [ownerDelta, h]
  · intro hv hc
    have hle := ownerDelta_veto p hv
    have hcZ : (countReplicaSetRefs p : ℤ) ≤ 99 := by exact_mod_cast hc
    omega

set_option maxRecDepth 10000 in
/-- C5 counterexample: `cxMixedOwnersPod` carries a stateful-set owner
reference, yet 101 replica-set references make the owner pass contribute
+100, which is not negative. -/
theorem ownerVetoOverriddenByReplicaSetBonuses :
    (({ Kind := "StatefulSet" } : OwnerReference) ∈ cxMixedOwnersPod.OwnerReferences) ∧
    ownerDelta cxMixedOwnersPod = 100 ∧ ¬ ownerDelta cxMixedOwnersPod < 0 := by
  exact ⟨by decide, by decide, by decide⟩

/-- C5 witness: the owner pass of a stateful-set-owned pod is negative. -/
theorem ownerScoringSpecWitness : ownerDelta vetoPod < 0 :=
  (ownerScoringSpec [] vetoPod).2.2.2.2.2.2 (by decide) (by decide)

/-- C2: `SelectPodForEviction` scores, stable-sorts descending by final
score, and returns the first candidate of the ranked order whose score is
non-negative; when every candidate is negative it returns the `none`
sentinel. -/
theorem selectionSpec (now minPodAge : Int) (s : PodCandidateSet) :
    List.Pairwise (fun a b => b.Score ≤ a.Score)
      (sortCandidates (applyScoring now minPodAge s)) ∧
    (sortCandidates (applyScoring now minPodAge s)).Perm (applyScoring now minPodAge s) ∧
    (selectPodForEviction now minPodAge s = none ↔
      ∀ c ∈ sortCandidates (applyScoring now minPodAge s), c.Score < 0) ∧
    (∀ q, selectPodForEviction now minPodAge s = some q →
      ∃ l1 c l2, sortCandidates (applyScoring now minPodAge s) = l1 ++ c :: l2 ∧
        (∀ d ∈ l1, d.Score < 0) ∧ 0 ≤ c.Score ∧ q = c.Pod) := by
  refine ⟨?_, ?_, ?_, ?_⟩
  · have h := @List.sorted_mergeSort PodCandidate candidateLE
      candidateLE_trans candidateLE_total (applyScoring now minPodAge s)
    exact h.imp (by
      intro a b hab
      simpa [candidateLE] using hab)
  · exact List.mergeSort_perm _ candidateLE
  · unfold selectPodForEviction
    rw [Option.map_eq_none', List.find?_eq_none]
    constructor
    · intro h c hc
      have := h c hc
      simpa using this
    · intro h c hc
      simpa using h c hc
  · intro q hq
    unfold selectPodForEviction at hq
    rw [Option.map_eq_some'] at hq
    obtain ⟨c, hfind, hpod⟩ := hq
    rw [List.find?_eq_some] at hfind
    obtain ⟨hpc, as, bs, heq, hneg⟩ := hfind
    refine ⟨as, c, bs, heq, ?_, ?_, hpod.symm⟩
    · intro d hd
      have := hneg d hd
      simpa using this
    · simpa using hpc

/-- C2 witness: on a singleton candidate set containing a selectable pod,
the characterization applies. -/
theorem selectionSpecWitness :
    ∃ l1 c l2,
      sortCandidates (applyScoring 0 0 (PodCandidateSetFromPodList [goodPod]))
        = l1 ++ c :: l2 ∧ (∀ d ∈ l1, d.Score < 0) ∧ 0 ≤ c.Score ∧ goodPod = c.Pod :=
  (selectionSpec 0 0 (PodCandidateSetFromPodList [goodPod])).2.2.2 goodPod (by
    have h : applyScoring 0 0 (PodCandidateSetFromPodList [goodPod])
        = [{ Pod := goodPod, Score := 200 }] := by decide
    rw [selectPodForEviction, h, sortCandidates, List.mergeSort]
    decide)

/-- C3: the five documented age-delta anchor values (≈20 at 1 s, ≈24 at
1 min, ≈28 at 1 h, ≈32 at 1 d, ≈39 at 1 y) do not match the code: the code
computes `floor(ln(1+age))` on the age in whole seconds, which yields
0, 4, 8, 11 and 17 at those ages.  Each computed value is certified
against the real logarithm. -/
theorem ageDeltaDivergesFromDocumentedValues :
    (ageDelta (1 * nsPerSecond) 0 agePod = (lnFloor 2 : ℤ)
      ∧ (lnFloor 2 : ℤ) = ⌊Real.log ((2 : ℕ) : ℝ)⌋
      ∧ ageDelta (1 * nsPerSecond) 0 agePod = 0
      ∧ ageDelta (1 * nsPerSecond) 0 agePod ≠ 20) ∧
    (ageDelta (60 * nsPerSecond) 0 agePod = (lnFloor 61 : ℤ)
      ∧ (lnFloor 61 : ℤ) = ⌊Real.log ((61 : ℕ) : ℝ)⌋
      ∧ ageDelta (60 * nsPerSecond) 0 agePod = 4
      ∧ ageDelta (60 * nsPerSecond) 0 agePod ≠ 24) ∧
    (ageDelta (3600 * nsPerSecond) 0 agePod = (lnFloor 3601 : ℤ)
      ∧ (lnFloor 3601 : ℤ) = ⌊Real.log ((3601 : ℕ) : ℝ)⌋
      ∧ ageDelta (3600 * nsPerSecond) 0 agePod = 8
      ∧ ageDelta (3600 * nsPerSecond) 0 agePod ≠ 28) ∧
    (ageDelta (86400 * nsPerSecond) 0 agePod = (lnFloor 86401 : ℤ)
      ∧ (lnFloor 86401 : ℤ) = ⌊Real.log ((86401 : ℕ) : ℝ)⌋
      ∧ ageDelta (86400 * nsPerSecond) 0 agePod = 11
      ∧ ageDelta (86400 * nsPerSecond) 0 agePod ≠ 32) ∧
    (ageDelta (31536000 * nsPerSecond) 0 agePod = (lnFloor 31536001 : ℤ)
      ∧ (lnFloor 31536001 : ℤ) = ⌊Real.log ((31536001 : ℕ) : ℝ)⌋
      ∧ ageDelta (31536000 * nsPerSecond) 0 agePod = 17
      ∧ ageDelta (31536000 * nsPerSecond) 0 agePod ≠ 39) := by
  refine ⟨⟨by decide, lnFloor_eq_floor_log 2 (by norm_num) (by norm_num),
      by decide, by decide⟩,
    ⟨by decide, lnFloor_eq_floor_log 61 (by norm_num) (by norm_num),
      by decide, by decide⟩,
    ⟨by decide, lnFloor_eq_floor_log 3601 (by norm_num) (by norm_num),
      by decide, by decide⟩,
    ⟨by decide, lnFloor_eq_floor_log 86401 (by norm_num) (by norm_num),
      by decide, by decide⟩,
    ⟨by decide, lnFloor_eq_floor_log 31536001 (by norm_num) (by norm_num),
      by decide, by decide⟩⟩

/-- C4: the age pass adds exactly one delta per candidate: −10000 when the
start time is missing or the age is strictly below `minPodAge` (and
nothing else in that case), and otherwise the non-negative value
`⌊log (1 + age)⌋` where `age` is the whole-second age floored at 1. -/
theorem ageScoringSpec (now minPodAge : Int) (s : PodCandidateSet) (p : Pod) :
    scoreByAge now minPodAge s
      = s.map (fun c => { c with Score := c.Score + ageDelta now minPodAge c.Pod }) ∧
    (p.StartTime = none → ageDelta now minPodAge p = -10000) ∧
    (∀ st, p.StartTime = some st → durSub now st < minPodAge →
      ageDelta now minPodAge p = -10000) ∧
    (∀ st, p.StartTime = some st → ¬ durSub now st < minPodAge →
      1 ≤ ageSeconds (durSub now st) ∧
      ageDelta now minPodAge p
        = ⌊Real.log ((1 + ageSeconds (durSub now st) : Int) : ℝ)⌋ ∧
      0 ≤ ageDelta now minPodAge p) := by
  refine ⟨rfl, ?_, ?_, ?_⟩
  · intro h
    unfold ageDelta
    rw [h]
  · intro st h hlt
    unfold ageDelta
    rw [h]
    simp [hlt]
  · intro st h hge
    have h1 := ageSeconds_lower (durSub now st)
    have h2 := ageSeconds_upper (durSub now st) (durSub_le_max now st)
    have h0 : (0 : ℤ) ≤ 1 + ageSeconds (durSub now st) := by omega
    have hm : 2 ≤ (1 + ageSeconds (durSub now st)).toNat := by omega
    have hub : (1 + ageSeconds (durSub now st)).toNat ≤ 9223372037 := by omega
    have hval : ageDelta now minPodAge p
        = (lnFloor (1 + ageSeconds (durSub now st)).toNat : ℤ) := by
      unfold ageDelta
      rw [h]
      simp [hge]
    refine ⟨h1, ?_, ?_⟩
    · rw [hval, lnFloor_eq_floor_log _ hm hub]
      have hcast : (((1 + ageSeconds (durSub now st)).toNat : ℕ) : ℝ)
          = ((1 + ageSeconds (durSub now st) : ℤ) : ℝ) := by
        exact_mod_cast Int.toNat_of_nonneg h0
      rw [hcast]
    · rw [hval]
      exact_mod_cast Nat.zero_le _

/-- C4 witness: at one minute of eligible age the delta is the floor of the
real logarithm of 61. -/
theorem ageScoringSpecWitness :
    1 ≤ ageSeconds (durSub (60 * nsPerSecond) 0) ∧
    ageDelta (60 * nsPerSecond) 0 agePod
      = ⌊Real.log ((1 + ageSeconds (durSub (60 * nsPerSecond) 0) : Int) : ℝ)⌋ ∧
    0 ≤ ageDelta (60 * nsPerSecond) 0 agePod :=
  (ageScoringSpec (60 * nsPerSecond) 0 [] agePod).2.2.2 0 (by decide) (by decide)

/-- C6: the sort used by `SelectPodForEviction` is stable: two candidates
with equal final score keep, in the ranked order, the relative order they
had in the scored (input-ordered) candidate list. -/
theorem sortStable (now minPodAge : Int) (s : PodCandidateSet) (a b : PodCandidate)
    (hsub : [a, b].Sublist (applyScoring now minPodAge s))
    (heq : a.Score = b.Score) :
    [a, b].Sublist (sortCandidates (applyScoring now minPodAge s)) := by
  unfold sortCandidates
  exact List.pair_sublist_mergeSort candidateLE_trans candidateLE_total
    (by simp [candidateLE, heq]) hsub

/-- C6 witness: two equal-scored candidates stay in input order through the
sort. -/
theorem sortStableWitness :
    [({ Pod := goodPod, Score := 200 } : PodCandidate),
      { Pod := goodPod, Score := 200 }].Sublist
      (sortCandidates (applyScoring 0 0 (PodCandidateSetFromPodList [goodPod, goodPod]))) :=
  sortStable 0 0 (PodCandidateSetFromPodList [goodPod, goodPod]) _ _
    (by
      have h : applyScoring 0 0 (PodCandidateSetFromPodList [goodPod, goodPod])
          = [{ Pod := goodPod, Score := 200 }, { Pod := goodPod, Score := 200 }] := by
        decide
      rw [h])
    rfl

/-- C7: among eligible candidates (age at least `minPodAge`), the age delta
is monotonically non-decreasing in the eligible age. -/
theorem ageDeltaMonotone (now minPodAge t1 t2 : Int) (p : Pod)
    (h1 : minPodAge ≤ durSub now t1)
    (h2 : minPodAge ≤ durSub now t2)
    (hord : durSub now t2 ≤ durSub now t1) :
    ageDelta now minPodAge { p with StartTime := some t2 }
      ≤ ageDelta now minPodAge { p with StartTime := some t1 } := by
  have e1 : ageDelta now minPodAge { p with StartTime := some t1 }
      = (lnFloor (1 + ageSeconds (durSub now t1)).toNat : ℤ) := by
    unfold ageDelta
    simp [not_lt.mpr h1]
  have e2 : ageDelta now minPodAge { p with StartTime := some t2 }
      = (lnFloor (1 + ageSeconds (durSub now t2)).toNat : ℤ) := by
    unfold ageDelta
    simp [not_lt.mpr h2]
  rw [e1, e2]
  have hmono := ageSeconds_mono (durSub now t2) (durSub now t1) hord
  have hl := ageSeconds_lower (durSub now t2)
  have htn : (1 + ageSeconds (durSub now t2)).toNat
      ≤ (1 + ageSeconds (durSub now t1)).toNat := by omega
  exact_mod_cast lnFloor_mono _ _ htn

/-- C7 witness: at one hour against one minute of eligible age the deltas
are ordered. -/
theorem ageDeltaMonotoneWitness :
    ageDelta (3600 * nsPerSecond) 0 { agePod with StartTime := some (3540 * nsPerSecond) }
      ≤ ageDelta (3600 * nsPerSecond) 0 { agePod with StartTime := some 0 } :=
  ageDeltaMonotone (3600 * nsPerSecond) 0 0 (3540 * nsPerSecond) agePod
    (by decide) (by decide) (by decide)

/-- C8: `NewWatcher` propagates the procfs failure as an error, and on
success builds a watcher with a 15-second ticker interval and, when the
caller passes threshold 0, pressure threshold 25. -/
theorem newWatcherSpec :
    (∀ t e, NewWatcher t (Except.error e) = Except.error e) ∧
    (∀ t fs, NewWatcher t (Except.ok fs)
      = Except.ok { TickerInterval := 15 * nsPerSecond,
                    PressureThreshold := if t = 0 then 25 else t,
                    proc := fs, isCurrentlyHigh := false }) ∧
    (∀ fs, NewWatcher 0 (Except.ok fs)
      = Except.ok { TickerInterval := 15 * nsPerSecond, PressureThreshold := 25,
                    proc := fs, isCurrentlyHigh := false }) := by
  refine ⟨fun t e => rfl, fun t fs => rfl, fun fs => ?_⟩
  norm_num [NewWatcher]

/-- C9: an owner reference of any unrecognized kind contributes a zero
delta, and a pod owned solely through such references gets a zero owner
delta. -/
theorem unrecognizedOwnerKindNeutral (k : String)
    (h1 : k ≠ "ReplicaSet") (h2 : k ≠ "StatefulSet") (h3 : k ≠ "DaemonSet") :
    kindDelta k = 0
      ∧ ∀ p : Pod, p.OwnerReferences = [{ Kind := k }] → ownerDelta p = 0 := by
  have hk : kindDelta k = 0 := by
    unfold kindDelta
    rw [if_neg h1, if_neg h2, if_neg h3]
  refine ⟨hk, ?_⟩
  intro p hp
  unfold ownerDelta
  rw [hp]
  simp [hk]

/-- C9 witness: a job-owned pod is neither bonused nor vetoed by
ownership. -/
theorem unrecognizedOwnerKindNeutralWitness :
    kindDelta "Job" = 0 ∧ ownerDelta jobPod = 0 :=
  ⟨(unrecognizedOwnerKindNeutral "Job" (by decide) (by decide) (by decide)).1,
   (unrecognizedOwnerKindNeutral "Job" (by decide) (by decide) (by decide)).2 jobPod rfl⟩

/-- C10: every scoring pass changes only scores: the pod of each candidate
(and the pod sequence as a whole) is unchanged, and the sort only permutes
candidates. -/
theorem scoringPreservesPods (now minPodAge : Int) (s : PodCandidateSet) :
    (scoreByAge now minPodAge s).map PodCandidate.Pod = s.map PodCandidate.Pod ∧
    (scoreByQOSClass s).map PodCandidate.Pod = s.map PodCandidate.Pod ∧
    (scoreByOwnerType s).map PodCandidate.Pod = s.map PodCandidate.Pod ∧
    (scoreByCriticality s).map PodCandidate.Pod = s.map PodCandidate.Pod ∧
    (applyScoring now minPodAge s).map PodCandidate.Pod = s.map PodCandidate.Pod ∧
    ((sortCandidates (applyScoring now minPodAge s)).map PodCandidate.Pod).Perm
      (s.map PodCandidate.Pod) := by
  have h5 : (applyScoring now minPodAge s).map PodCandidate.Pod
      = s.map PodCandidate.Pod := by
    rw [applyScoring, scoreByCriticality, scoreByOwnerType, scoreByQOSClass,
      scoreByAge, List.map_map, List.map_map, List.map_map, List.map_map]
    rfl
  refine ⟨?_, ?_, ?_, ?_, h5, ?_⟩
  · rw [scoreByAge, List.map_map]
    rfl
  · rw [scoreByQOSClass, List.map_map]
    rfl
  · rw [scoreByOwnerType, List.map_map]
    rfl
  · rw [scoreByCriticality, List.map_map]
    rfl
  · have hp : ((sortCandidates (applyScoring now minPodAge s)).map PodCandidate.Pod).Perm
        ((applyScoring now minPodAge s).map PodCandidate.Pod) :=
      List.Perm.map PodCandidate.Pod (List.mergeSort_perm _ candidateLE)
    rw [h5] at hp
    exact hp

end Pressurecooker
